import Mathlib

/-!
Shallow embedding of `src/data_load.py` (repository TFG_Info).

The module ingests tab-separated annotation rows, groups them by proposal
id, and produces balanced or filtered corpora.  We translate:

* `Evaluation` / `EvaluatedArgument`: record types; optional integer
  fields become `Option Int`; the constructor `Evaluation.__init__`
  parses strings with Python `int(...)`, modelled by `pyInt`,
  and so construction is `Option`-valued.
* `Corpus`: a Python `dict` from `int` to lists, insertion ordered,
  modelled as an association list `List (Int × List EvaluatedArgument)`.
  A genuine Python dict always has pairwise distinct keys; quantified
  theorems carry that `Nodup` representation invariant explicitly.
* `random.sample` is the single nondeterministic operation; it is
  modelled by an explicit sampler parameter together with the predicate
  `SamplerSpec` stating what any outcome of `random.sample` satisfies
  (exact size, drawn from the population).
* Exceptions (`AttributeError` from `getattr`, named `UnknownFieldError`
  in the design documents, and `ValueError` from `int(...)`) become
  `Except` / `Option` results.
-/

namespace DataLoad

/-- `take_n_random_elements(data, n)` from `data_load.py` lines 12-16:
if `n` is at least the length of the data the whole list is returned,
otherwise `random.sample(data, n)` is called; the call is modelled by
the explicit `sample` parameter. -/
def take_n_random_elements {α : Type} (sample : List α → Nat → List α)
    (data : List α) (n : Nat) : List α :=
  if n ≥ data.length then data else sample data n

/-- Every outcome of `random.sample(data, n)` (only called with
`n < len(data)`) has exactly `n` elements, all drawn from `data`. -/
def SamplerSpec {α : Type} (sample : List α → Nat → List α) : Prop :=
  ∀ data n, n < data.length →
    (sample data n).length = n ∧ ∀ x ∈ sample data n, x ∈ data

/-- Value of a decimal digit character, if any. -/
def digitVal (ch : Char) : Option Nat :=
  if ch = '0' then some 0
  else if ch = '1' then some 1
  else if ch = '2' then some 2
  else if ch = '3' then some 3
  else if ch = '4' then some 4
  else if ch = '5' then some 5
  else if ch = '6' then some 6
  else if ch = '7' then some 7
  else if ch = '8' then some 8
  else if ch = '9' then some 9
  else none

/-- Accumulating decimal parser over a character list. -/
def parseDigitsGo : List Char → Nat → Option Nat
  | [], acc => some acc
  | ch :: rest, acc =>
    match digitVal ch with
    | some d => parseDigitsGo rest (acc * 10 + d)
    | none => none

/-- A non-empty all-digit character list, as a natural number. -/
def parseDigits : List Char → Option Nat
  | [] => none
  | l => parseDigitsGo l 0

/-- Model of Python `int(s)` on the inputs of this program: an optional
sign followed by decimal digits; anything else raises `ValueError`,
modelled as `none`. -/
def pyInt (s : String) : Option Int :=
  match s.data with
  | '-' :: rest => (parseDigits rest).map (fun n => -(n : Int))
  | '+' :: rest => (parseDigits rest).map (fun n => (n : Int))
  | l => (parseDigits l).map (fun n => (n : Int))

/-- The record type `Evaluation` (lines 19-56): eight optional integer
fields; `claim` is always populated by the constructor, the others stay
`None` unless the gating succeeds. -/
structure Evaluation where
  claim : Int
  claim_premise : Option Int := none
  aspect : Option Int := none
  premise_validation : Option Int := none
  coherence : Option Int := none
  consistence : Option Int := none
  persuasion : Option Int := none
  emotional_ethic : Option Int := none
deriving DecidableEq

/-- `Evaluation.__init__` (lines 31-52).  All parameters are the raw
strings of the input row; `int(x)` is modelled by `pyInt` and a
parse failure (Python `ValueError`, the spec's `InvalidFieldError`)
makes the whole construction fail.  Note the source gates on the STRING
comparisons `claim == "1"` and `claim_premise == "1"`. -/
def mkEvaluation (claim claim_premise aspect premise_validation coherence
    consistence persuasion emotional_ethic : String) : Option Evaluation :=
  match pyInt claim with
  | none => none
  | some c =>
    if claim = "1" then
      match pyInt claim_premise, pyInt aspect with
      | some cp, some a =>
        if claim_premise = "1" then
          match pyInt premise_validation, pyInt coherence, pyInt consistence,
              pyInt persuasion, pyInt emotional_ethic with
          | some pv, some co, some cs, some pe, some ee =>
            some ⟨c, some cp, some a, some pv, some co, some cs, some pe, some ee⟩
          | _, _, _, _, _ => none
        else
          some ⟨c, some cp, some a, none, none, none, none, none⟩
      | _, _ => none
    else
      some ⟨c, none, none, none, none, none, none, none⟩

/-- The eight recognized evaluation field names, in declaration order. -/
def recognizedFields : List String :=
  ["claim", "claim_premise", "aspect", "premise_validation",
   "coherence", "consistence", "persuasion", "emotional_ethic"]

/-- The names of the methods defined in the `Evaluation` class body
(lines 31-83); `getattr` finds these as bound methods, it does NOT
raise on them. -/
def evaluationMethodNames : List String :=
  ["__init__", "get_field", "format_print", "format_file"]

/-- A Python value observable through `getattr` on an `Evaluation`
instance: an integer field value, the `None` marker of an absent field,
or a bound method (identified here by its name). -/
inductive PyAttr where
  | vint : Int → PyAttr
  | vnone : PyAttr
  | method : String → PyAttr
deriving DecidableEq

/-- An optional field value as the Python value `getattr` returns:
`None` when the field is absent, the integer otherwise. -/
def pyOfOpt : Option Int → PyAttr
  | some n => .vint n
  | none => .vnone

/-- Whether a name starts with an underscore.  Every attribute an
`Evaluation` instance inherits from `object` (`__class__`, `__eq__`,
`__doc__`, ...) is a dunder and hence underscore-prefixed. -/
def leadingUnderscore (s : String) : Bool :=
  match s.data with
  | [] => false
  | ch :: _ => ch = '_'

/-- `Evaluation.get_field` (lines 54-56): `getattr(self, field_name)`.
The attribute table modelled here is the eight data fields (integer or
`None`) plus the four methods of the class body, which `getattr`
returns as bound methods without raising.  A name that is none of
these raises `AttributeError` — the `UnknownFieldError` of the design
documents — modelled as `Except.error`.  The attributes the instance
additionally inherits from `object` are all underscore-prefixed
dunders and are OUTSIDE this table, so the theorems below only assert
failure for names with `leadingUnderscore` false. -/
def Evaluation.get_field (e : Evaluation) (field_name : String) :
    Except String PyAttr :=
  if field_name = "claim" then .ok (.vint e.claim)
  else if field_name = "claim_premise" then .ok (pyOfOpt e.claim_premise)
  else if field_name = "aspect" then .ok (pyOfOpt e.aspect)
  else if field_name = "premise_validation" then .ok (pyOfOpt e.premise_validation)
  else if field_name = "coherence" then .ok (pyOfOpt e.coherence)
  else if field_name = "consistence" then .ok (pyOfOpt e.consistence)
  else if field_name = "persuasion" then .ok (pyOfOpt e.persuasion)
  else if field_name = "emotional_ethic" then .ok (pyOfOpt e.emotional_ethic)
  else if field_name ∈ evaluationMethodNames then .ok (.method field_name)
  else .error "UnknownFieldError"

/-- `EvaluatedArgument` (lines 86-124). -/
structure EvaluatedArgument where
  id_proposal : Int
  id_argument : Int
  argument : String
  evaluation : Evaluation
deriving DecidableEq

/-- `Corpus.arguments_dict`: a Python `dict[int, list]`, insertion
ordered, modelled as an association list. -/
abbrev Corpus := List (Int × List EvaluatedArgument)

/-- The keys of the dict, in insertion order. -/
def corpusKeys (c : Corpus) : List Int := c.map Prod.fst

/-- `arguments_dict[k]`: the list stored under `k`, if present. -/
def corpusGet : Corpus → Int → Option (List EvaluatedArgument)
  | [], _ => none
  | kv :: rest, k => if kv.1 = k then some kv.2 else corpusGet rest k

/-- Number of arguments stored under key `k` (0 when `k` is absent). -/
def countAt (c : Corpus) (k : Int) : Nat := ((corpusGet c k).getD []).length

/-- All arguments stored in the corpus, in iteration order. -/
def corpusArgs : Corpus → List EvaluatedArgument
  | [] => []
  | kv :: rest => kv.2 ++ corpusArgs rest

/-- `arguments_dict[k].append(a)`: mutate the list stored under `k`. -/
def dictAppendTo (c : Corpus) (k : Int) (a : EvaluatedArgument) : Corpus :=
  c.map fun kv => if kv.1 = k then (kv.1, kv.2 ++ [a]) else kv

/-- `arguments_dict[k] = v`: Python dict assignment — an existing key
keeps its position and gets the new value, a new key is appended. -/
def dictSet (c : Corpus) (k : Int) (v : List EvaluatedArgument) : Corpus :=
  if (corpusKeys c).contains k then
    c.map fun kv => if kv.1 = k then (kv.1, v) else kv
  else c ++ [(k, v)]

/-- `Corpus._append_argument` (lines 136-141).  Note the source quirk:
when `proposal_id` is not yet a key, the new entry is created under
`argument.id_proposal`, not under the passed `proposal_id`. -/
def appendArgument (c : Corpus) (proposal_id : Int)
    (argument : EvaluatedArgument) : Corpus :=
  if (corpusKeys c).contains proposal_id then
    dictAppendTo c proposal_id argument
  else
    dictSet c argument.id_proposal [argument]

/-- `Corpus.append_all_arguments` (lines 143-148). -/
def appendAllArguments (c : Corpus) (proposal_id : Int)
    (arguments : List EvaluatedArgument) : Corpus :=
  arguments.foldl (fun acc a => appendArgument acc proposal_id a) c

/-- The membership test
`argument.get_evaluation().get_field(field_name) in values` used by both
filters.  In Python, neither `None` nor a bound method equals any
integer, so `None in values` and `method in values` are `False` for the
integer value lists used here; only an integer field value can match. -/
def matchesField (a : EvaluatedArgument) (field_name : String)
    (values : List Int) : Except String Bool :=
  match a.evaluation.get_field field_name with
  | .error e => .error e
  | .ok (.vint n) => .ok (values.contains n)
  | .ok .vnone => .ok false
  | .ok (.method _) => .ok false

/-- The list comprehension filtering one proposal's arguments by
`field_name`/`values` (lines 159-163 and 223-227); an `AttributeError`
raised on any element aborts the whole operation. -/
def filterArgsE (field_name : String) (values : List Int) :
    List EvaluatedArgument → Except String (List EvaluatedArgument)
  | [] => .ok []
  | a :: rest =>
    match matchesField a field_name values, filterArgsE field_name values rest with
    | .error e, _ => .error e
    | .ok _, .error e => .error e
    | .ok b, .ok tl => .ok (if b then a :: tl else tl)

/-- The non-argument comprehension of `filter_by_completed` (lines
166-171): arguments whose `claim_premise` field differs from 1 (Python
`None != 1` is true, so gated-off records count as non-arguments). -/
def nonArgumentsOf (args : List EvaluatedArgument) : List EvaluatedArgument :=
  args.filter fun a => !(a.evaluation.claim_premise == some 1)

/-- The positives of `filter_by_completed("claim_premise", 1)`: arguments
whose `claim_premise` field equals 1. -/
def isPositive (a : EvaluatedArgument) : Bool := a.evaluation.claim_premise == some 1

/-- Number of positives (`claim_premise` field equal to 1) of an entry. -/
def pcount (args : List EvaluatedArgument) : Nat := (args.filter isPositive).length

/-- Number of non-arguments (`claim_premise` field not 1) of an entry. -/
def qcount (args : List EvaluatedArgument) : Nat := (nonArgumentsOf args).length

/-- Loop body of `Corpus.filter_by` (lines 214-229), iterating the
dict entries in insertion order with the accumulated result corpus. -/
def filterByGo (field_name : String) (values : List Int) :
    List (Int × List EvaluatedArgument) → Corpus → Except String Corpus
  | [], acc => .ok acc
  | (pid, args) :: rest, acc =>
    match filterArgsE field_name values args with
    | .error e => .error e
    | .ok kept => filterByGo field_name values rest (appendAllArguments acc pid kept)

/-- `Corpus.filter_by(field_name, values)` (lines 214-229); `values` is
already the list form (a single value is wrapped into a singleton list
by the source before the loop). -/
def filter_by (c : Corpus) (field_name : String) (values : List Int) :
    Except String Corpus :=
  filterByGo field_name values c []

/-- Loop body of `Corpus.filter_by_completed` (lines 150-174): per
proposal, append the matching arguments, then a random sample of the
non-arguments of the SAME original entry, sized to the number of
matches (capped by `take_n_random_elements`). -/
def filterByCompletedGo (sample : List EvaluatedArgument → Nat → List EvaluatedArgument)
    (field_name : String) (values : List Int) :
    List (Int × List EvaluatedArgument) → Corpus → Except String Corpus
  | [], acc => .ok acc
  | (pid, args) :: rest, acc =>
    match filterArgsE field_name values args with
    | .error e => .error e
    | .ok matched =>
      let acc1 := appendAllArguments acc pid matched
      let sampled := take_n_random_elements sample (nonArgumentsOf args) matched.length
      filterByCompletedGo sample field_name values rest (appendAllArguments acc1 pid sampled)

/-- `Corpus.filter_by_completed(field_name, values)` (lines 150-174). -/
def filter_by_completed (sample : List EvaluatedArgument → Nat → List EvaluatedArgument)
    (c : Corpus) (field_name : String) (values : List Int) :
    Except String Corpus :=
  filterByCompletedGo sample field_name values c []

/-- Representation invariant of every corpus reachable in Python:
each stored argument carries the proposal id it is keyed under. -/
def WellFormed (c : Corpus) : Prop :=
  ∀ p ∈ c, ∀ a ∈ p.2, a.id_proposal = p.1

instance : DecidablePred WellFormed := fun c =>
  inferInstanceAs (Decidable (∀ p ∈ c, ∀ a ∈ p.2, a.id_proposal = p.1))

/-- One row of the tab-separated input stream, with the columns the
classification functions read.  All values are the raw strings of the
file; numeric columns are parsed at their use sites with
`pyInt`, modelling Python `int(...)`. -/
structure Row where
  tipoElemento : String
  idPropuesta : String
  idElemento : String
  valor : String
  claim : String
  claimPremise : String
  aspect : String
  premiseValidation : String
  coherencia : String
  consistencia : String
  persuasion : String
  apelacion : String
deriving DecidableEq

/-- `Evaluation(...)` as called on a row by the classification
functions (lines 259-268, 306-315, 361-370): the eight question columns
in source order. -/
def rowEvaluation (row : Row) : Option Evaluation :=
  mkEvaluation row.claim row.claimPremise row.aspect row.premiseValidation
    row.coherencia row.consistencia row.persuasion row.apelacion

/-- The symmetric balancing executed at every proposal boundary of the
one-pass functions (lines 244-253 and 291-300): the larger of the two
buckets is downsampled to the size of the smaller one. -/
def balancePair (sample : List EvaluatedArgument → Nat → List EvaluatedArgument)
    (evaluated_data non_evaluated_data : List EvaluatedArgument) :
    List EvaluatedArgument × List EvaluatedArgument :=
  if evaluated_data.length < non_evaluated_data.length then
    (evaluated_data,
      take_n_random_elements sample non_evaluated_data evaluated_data.length)
  else if non_evaluated_data.length < evaluated_data.length then
    (take_n_random_elements sample evaluated_data non_evaluated_data.length,
      non_evaluated_data)
  else (evaluated_data, non_evaluated_data)

/-- The whole flush of an active group at a proposal boundary (lines
244-255 and 291-302): balance the two buckets, then commit first the
evaluated bucket, then the non-evaluated one, under the group id. -/
def balanceFlush (sample : List EvaluatedArgument → Nat → List EvaluatedArgument)
    (proposal_id : Int) (corpus : Corpus)
    (evaluated_data non_evaluated_data : List EvaluatedArgument) : Corpus :=
  let p := balancePair sample evaluated_data non_evaluated_data
  appendAllArguments (appendAllArguments corpus proposal_id p.1) proposal_id p.2

/-- Loop state of the one-pass classification functions.  The two
buckets are `Option`-valued because in the source they are local
variables first assigned inside the boundary block: reading them
before that block has run (only possible when the very first proposal
id of the stream is the sentinel `-1`) is a Python `NameError`,
modelled as `Option.none` propagation. -/
structure OptState where
  proposalId : Int
  corpus : Corpus
  evaluatedData : Option (List EvaluatedArgument)
  nonEvaluatedData : Option (List EvaluatedArgument)
deriving DecidableEq

/-- Shared per-row logic of both one-pass functions up to the bucket
choice: skip non-argument rows, flush at a proposal boundary, build the
evaluation and the argument record. -/
def classifyRowCommon (sample : List EvaluatedArgument → Nat → List EvaluatedArgument)
    (st : OptState) (row : Row) : Option (OptState × EvaluatedArgument) := do
  let rowPid ← pyInt row.idPropuesta
  let st ←
    if rowPid ≠ st.proposalId then do
      let corpus ←
        if st.proposalId ≠ -1 then do
          let ev ← st.evaluatedData
          let ne ← st.nonEvaluatedData
          pure (balanceFlush sample st.proposalId st.corpus ev ne)
        else pure st.corpus
      pure (OptState.mk rowPid corpus (some []) (some []))
    else pure st
  let eval ← rowEvaluation row
  let idElem ← pyInt row.idElemento
  pure (st, EvaluatedArgument.mk st.proposalId idElem row.valor eval)

/-- One iteration of the loop of `classify_arguments_or_not_opt`
(lines 239-275): rows not tagged `Argumento` are skipped; an argument
row goes to the evaluated bucket exactly when its `Claim+premise?WHY?`
column is the string `"1"`. -/
def classifyOptStep (sample : List EvaluatedArgument → Nat → List EvaluatedArgument)
    (st : OptState) (row : Row) : Option OptState :=
  if row.tipoElemento ≠ "Argumento" then some st
  else do
    let (st, arg) ← classifyRowCommon sample st row
    if row.claimPremise = "1" then
      let ev ← st.evaluatedData
      pure { st with evaluatedData := some (ev ++ [arg]) }
    else
      let ne ← st.nonEvaluatedData
      pure { st with nonEvaluatedData := some (ne ++ [arg]) }

/-- `classify_arguments_or_not_opt` (lines 233-276).  NOTE: after the
loop the source returns the corpus directly, performing no flush of the
still-active final group. -/
def classify_arguments_or_not_opt
    (sample : List EvaluatedArgument → Nat → List EvaluatedArgument)
    (rows : List Row) : Option Corpus := do
  let st ← rows.foldlM (classifyOptStep sample) (OptState.mk (-1) [] none none)
  pure st.corpus

/-- One iteration of the loop of
`classify_arguments_or_not_with_aspect_opt` (lines 286-325): the
evaluated bucket requires both `Claim+premise?WHY?` and
`Relacionado con aspecto?` to be `"1"`; rows with claim-premise `"1"`
but aspect not `"1"` go to neither bucket. -/
def classifyWithAspectOptStep
    (sample : List EvaluatedArgument → Nat → List EvaluatedArgument)
    (st : OptState) (row : Row) : Option OptState :=
  if row.tipoElemento ≠ "Argumento" then some st
  else do
    let (st, arg) ← classifyRowCommon sample st row
    if row.claimPremise = "1" ∧ row.aspect = "1" then
      let ev ← st.evaluatedData
      pure { st with evaluatedData := some (ev ++ [arg]) }
    else if row.claimPremise ≠ "1" then
      let ne ← st.nonEvaluatedData
      pure { st with nonEvaluatedData := some (ne ++ [arg]) }
    else
      pure st

/-- `classify_arguments_or_not_with_aspect_opt` (lines 280-326); like
the other one-pass function it performs no final flush after the loop. -/
def classify_arguments_or_not_with_aspect_opt
    (sample : List EvaluatedArgument → Nat → List EvaluatedArgument)
    (rows : List Row) : Option Corpus := do
  let st ← rows.foldlM (classifyWithAspectOptStep sample) (OptState.mk (-1) [] none none)
  pure st.corpus

/-- Loop state of `create_complete_corpus`.  Here `data` can be a plain
list: the source only reads it under `proposal_id != -1`, which implies
the boundary block already assigned it. -/
structure CompleteState where
  proposalId : Int
  corpus : Corpus
  data : List EvaluatedArgument
deriving DecidableEq

/-- One iteration of the loop of `create_complete_corpus` (lines
353-374).  The boundary test of the source, line 356, is
`row["Id propuesta"] != proposal_id`, comparing the raw STRING of the
row with the INTEGER loop variable: in Python a `str` never equals an
`int`, so the test is true on every argument row and every such row
opens a new group. -/
def createCompleteStep (st : CompleteState) (row : Row) : Option CompleteState :=
  if row.tipoElemento ≠ "Argumento" then some st
  else do
    let corpus :=
      if st.proposalId ≠ -1 then appendAllArguments st.corpus st.proposalId st.data
      else st.corpus
    let pid ← pyInt row.idPropuesta
    let eval ← rowEvaluation row
    let idElem ← pyInt row.idElemento
    pure (CompleteState.mk pid corpus [EvaluatedArgument.mk pid idElem row.valor eval])

/-- `create_complete_corpus` (lines 347-375).  NOTE: as with the
one-pass functions, the source returns right after the loop without
flushing the pending `data`, so the group opened by the last argument
row is never committed. -/
def create_complete_corpus (rows : List Row) : Option Corpus := do
  let st ← rows.foldlM createCompleteStep (CompleteState.mk (-1) [] [])
  pure st.corpus

/-- `classify_arguments_or_not` (lines 330-334): the two-pass variant,
a complete corpus followed by `filter_by_completed("claim_premise", 1)`. -/
def classify_arguments_or_not
    (sample : List EvaluatedArgument → Nat → List EvaluatedArgument)
    (rows : List Row) : Option (Except String Corpus) := do
  let corpus ← create_complete_corpus rows
  pure (filter_by_completed sample corpus "claim_premise" [1])

/-- A concrete deterministic sampler (always the first `n` elements),
one possible outcome of `random.sample`; used by witnesses. -/
def takeSampler : List EvaluatedArgument → Nat → List EvaluatedArgument :=
  fun l n => l.take n

/-! ### Concrete inputs used by the concrete theorems below -/

/-- A reachable evaluation with `claim = 1` and `claim_premise v`. -/
def evalCP (v : Int) : Evaluation :=
  ⟨1, some v, some 1, none, none, none, none, none⟩

/-- A reachable evaluation with `claim = 0` (everything else absent). -/
def evalC0 : Evaluation := ⟨0, none, none, none, none, none, none, none⟩

/-- An argument with the given proposal id, argument id and evaluation. -/
def mkArg (pid idArg : Int) (e : Evaluation) : EvaluatedArgument :=
  ⟨pid, idArg, "texto", e⟩

/-- Five positives of proposal 1 (for the p = 5, q = 2 example). -/
def c1evList : List EvaluatedArgument :=
  [mkArg 1 1 (evalCP 1), mkArg 1 2 (evalCP 1), mkArg 1 3 (evalCP 1),
   mkArg 1 4 (evalCP 1), mkArg 1 5 (evalCP 1)]

/-- Two negatives of proposal 1 (for the p = 5, q = 2 example). -/
def c1neList : List EvaluatedArgument :=
  [mkArg 1 6 (evalCP 0), mkArg 1 7 (evalCP 0)]

/-- The same group, as one entry list: 5 positives then 2 negatives. -/
def c1allList : List EvaluatedArgument := c1evList ++ c1neList

/-- A well-formed corpus with one proposal, 3 positives and 5 negatives
(the scenario of the design documents). -/
def c2wArgs : List EvaluatedArgument :=
  [mkArg 1 1 (evalCP 1), mkArg 1 2 (evalCP 1), mkArg 1 3 (evalCP 1),
   mkArg 1 4 (evalCP 0), mkArg 1 5 (evalCP 0), mkArg 1 6 (evalCP 0),
   mkArg 1 7 (evalCP 0), mkArg 1 8 (evalCP 0)]

def c2wCorpus : Corpus := [(1, c2wArgs)]

/-- An ill-formed corpus, reachable through `append_all_arguments(1, [b, a])`
on an empty corpus: `b` carries proposal id 1 and creates the key, `a`
carries proposal id 2 but is stored under key 1. -/
def c2bneg : EvaluatedArgument := mkArg 1 10 (evalCP 0)

def c2apos : EvaluatedArgument := mkArg 2 11 (evalCP 1)

/-- Arguments for the C6 counterexample: `c6x` is keyed consistently,
`c6a` is stored under key 1 but carries proposal id 2. -/
def c6x : EvaluatedArgument := mkArg 1 20 (evalCP 1)

def c6a : EvaluatedArgument := mkArg 2 21 evalC0

/-- Well-formed arguments for the C6 witness. -/
def c6wx : EvaluatedArgument := mkArg 1 22 (evalCP 1)

def c6wa : EvaluatedArgument := mkArg 1 23 evalC0

def c6wCorpus : Corpus := [(1, [c6wx, c6wa])]

/-- Arguments for the C7 counterexample: proposal 2 exists with no
match, but `c7a` (stored under key 1, carrying proposal id 2) makes the
key 2 appear in the filtered result. -/
def c7x : EvaluatedArgument := mkArg 1 30 (evalCP 1)

def c7a : EvaluatedArgument := mkArg 2 31 evalC0

def c7y : EvaluatedArgument := mkArg 2 32 (evalCP 1)

/-- Well-formed corpus for the C7 witness: proposal 1 matches
`claim = 0`, proposal 2 does not. -/
def c7wx : EvaluatedArgument := mkArg 1 33 evalC0

def c7wy : EvaluatedArgument := mkArg 2 34 (evalCP 1)

def c7wCorpus : Corpus := [(1, [c7wx]), (2, [c7wy])]

/-- The single argument of the C9 duplication run: `claim = 0` matches
the filter and, having no `claim_premise`, it is also a non-argument. -/
def c9arg : EvaluatedArgument := mkArg 1 1 evalC0

/-- Arguments for the C10 witness. -/
def c10x : EvaluatedArgument := mkArg 1 40 evalC0

def c10a : EvaluatedArgument := mkArg 2 41 evalC0

/-- Rows of the C3 failing input: two argument rows of proposal 1 (one
positive, one negative), then one row of proposal 2. -/
def c3r1 : Row :=
  ⟨"Argumento", "1", "1", "t1", "1", "1", "1", "0", "0", "0", "0", "0"⟩

def c3r2 : Row :=
  ⟨"Argumento", "1", "2", "t2", "0", "0", "0", "0", "0", "0", "0", "0"⟩

def c3r3 : Row :=
  ⟨"Argumento", "2", "3", "t3", "0", "0", "0", "0", "0", "0", "0", "0"⟩

/-- The arguments built from `c3r1` and `c3r2` by the classifiers. -/
def c3argPos : EvaluatedArgument :=
  ⟨1, 1, "t1", ⟨1, some 1, some 1, some 0, some 0, some 0, some 0, some 0⟩⟩

def c3argNeg : EvaluatedArgument :=
  ⟨1, 2, "t2", ⟨0, none, none, none, none, none, none, none⟩⟩

/-- Rows of the C4 failing input: a skipped non-argument row and two
argument rows of proposal 1. -/
def c4r0 : Row :=
  ⟨"Comentario", "9", "9", "c", "x", "x", "x", "x", "x", "x", "x", "x"⟩

def c4r1 : Row :=
  ⟨"Argumento", "1", "1", "t1", "0", "0", "0", "0", "0", "0", "0", "0"⟩

def c4r2 : Row :=
  ⟨"Argumento", "1", "2", "t2", "0", "0", "0", "0", "0", "0", "0", "0"⟩

/-- The argument built from `c4r1`. -/
def c4arg1 : EvaluatedArgument :=
  ⟨1, 1, "t1", ⟨0, none, none, none, none, none, none, none⟩⟩

theorem takeSampler_spec : SamplerSpec takeSampler := by
  intro data n h
  refine ⟨?_, fun x hx => List.take_subset n data hx⟩
  simp [takeSampler, Nat.min_eq_left (Nat.le_of_lt h)]

/-! ### Lemmas about the dictionary operations -/

theorem corpusGet_isSome_iff (c : Corpus) (k : Int) :
    (corpusGet c k).isSome = true ↔ k ∈ corpusKeys c := by
  induction c with
  | nil => simp [corpusGet, corpusKeys]
  | cons kv rest ih =>
    by_cases h : kv.1 = k
    · simp [corpusGet, corpusKeys, h]
    · simp [corpusGet, corpusKeys, h, ih, Ne.symm h]

theorem corpusGet_eq_none_of_not_mem {c : Corpus} {k : Int}
    (h : k ∉ corpusKeys c) : corpusGet c k = none := by
  have := (corpusGet_isSome_iff c k).not.mpr h
  cases hg : corpusGet c k
  · rfl
  · rw [hg] at this; simp at this

theorem corpusGet_dictAppendTo (c : Corpus) (k : Int) (a : EvaluatedArgument)
    (j : Int) :
    corpusGet (dictAppendTo c k a) j =
      if j = k then (corpusGet c k).map (fun l => l ++ [a]) else corpusGet c j := by
  induction c with
  | nil => simp [dictAppendTo, corpusGet]
  | cons kv rest ih =>
    simp only [dictAppendTo, List.map_cons] at ih ⊢
    by_cases h1 : kv.1 = k
    · rw [if_pos h1]
      by_cases h2 : j = k
      · subst h2
        simp [corpusGet, h1]
      · have h3 : ¬ kv.1 = j := fun hh => h2 (hh.symm.trans h1)
        simp [corpusGet, h3, h2, ih]
    · rw [if_neg h1]
      by_cases h2 : kv.1 = j
      · have h3 : ¬ j = k := fun hh => h1 (h2.trans hh)
        simp [corpusGet, h2, h3]
      · simp [corpusGet, h1, h2, ih]

theorem corpusKeys_dictAppendTo (c : Corpus) (k : Int) (a : EvaluatedArgument) :
    corpusKeys (dictAppendTo c k a) = corpusKeys c := by
  unfold dictAppendTo corpusKeys
  rw [List.map_map]
  apply List.map_congr_left
  intro kv _
  by_cases h : kv.1 = k
  · rw [Function.comp_apply, if_pos h]
  · rw [Function.comp_apply, if_neg h]

theorem corpusGet_dictReplace (c : Corpus) (k : Int) (v : List EvaluatedArgument)
    (j : Int) :
    corpusGet (c.map fun kv => if kv.1 = k then (kv.1, v) else kv) j =
      if j = k then (corpusGet c k).map (fun _ => v) else corpusGet c j := by
  induction c with
  | nil => simp [corpusGet]
  | cons kv rest ih =>
    simp only [List.map_cons] at ih ⊢
    by_cases h1 : kv.1 = k
    · rw [if_pos h1]
      by_cases h2 : j = k
      · subst h2
        simp [corpusGet, h1]
      · have h3 : ¬ kv.1 = j := fun hh => h2 (hh.symm.trans h1)
        simp [corpusGet, h3, h2, ih]
    · rw [if_neg h1]
      by_cases h2 : kv.1 = j
      · have h3 : ¬ j = k := fun hh => h1 (h2.trans hh)
        simp [corpusGet, h2, h3]
      · simp [corpusGet, h1, h2, ih]

theorem corpusGet_append_single (c : Corpus) (k : Int) (v : List EvaluatedArgument)
    (j : Int) (hk : k ∉ corpusKeys c) :
    corpusGet (c ++ [(k, v)]) j = if j = k then some v else corpusGet c j := by
  induction c with
  | nil =>
    by_cases h : j = k
    · simp [corpusGet, h]
    · have h2 : ¬ k = j := fun hh => h hh.symm
      simp [corpusGet, h, h2]
  | cons kv rest ih =>
    simp only [corpusKeys, List.map_cons, List.mem_cons, not_or] at hk
    by_cases h2 : kv.1 = j
    · have h3 : ¬ j = k := fun hh => hk.1 ((h2.trans hh).symm)
      simp [corpusGet, h2, h3]
    · simp only [List.cons_append, corpusGet, h2, if_false]
      exact ih (by simpa [corpusKeys] using hk.2)

theorem corpusGet_dictSet (c : Corpus) (k : Int) (v : List EvaluatedArgument)
    (j : Int) :
    corpusGet (dictSet c k v) j = if j = k then some v else corpusGet c j := by
  unfold dictSet
  by_cases hc : (corpusKeys c).contains k
  · rw [if_pos hc, corpusGet_dictReplace]
    by_cases h2 : j = k
    · have hmem : k ∈ corpusKeys c := by simpa using hc
      have := (corpusGet_isSome_iff c k).mpr hmem
      cases hg : corpusGet c k
      · rw [hg] at this; simp at this
      · simp [h2, hg]
    · simp [h2]
  · rw [if_neg hc]
    exact corpusGet_append_single c k v j (by simpa using hc)

theorem corpusKeys_dictReplace (c : Corpus) (k : Int) (v : List EvaluatedArgument) :
    corpusKeys (c.map fun kv => if kv.1 = k then (kv.1, v) else kv) = corpusKeys c := by
  unfold corpusKeys
  rw [List.map_map]
  apply List.map_congr_left
  intro kv _
  by_cases h : kv.1 = k
  · rw [Function.comp_apply, if_pos h]
  · rw [Function.comp_apply, if_neg h]

theorem corpusKeys_dictSet (c : Corpus) (k : Int) (v : List EvaluatedArgument) :
    corpusKeys (dictSet c k v) =
      if (corpusKeys c).contains k then corpusKeys c else corpusKeys c ++ [k] := by
  unfold dictSet
  by_cases hc : (corpusKeys c).contains k
  · rw [if_pos hc, if_pos hc, corpusKeys_dictReplace]
  · rw [if_neg hc, if_neg hc]
    simp [corpusKeys]

/-! ### Lemmas about `appendArgument` and `appendAllArguments` -/

theorem corpusGet_appendArgument (c : Corpus) (pid : Int) (a : EvaluatedArgument)
    (h : a.id_proposal = pid) (j : Int) :
    corpusGet (appendArgument c pid a) j =
      if j = pid then some (((corpusGet c pid).getD []) ++ [a]) else corpusGet c j := by
  unfold appendArgument
  by_cases hc : (corpusKeys c).contains pid
  · rw [if_pos hc, corpusGet_dictAppendTo]
    by_cases h2 : j = pid
    · subst h2
      have hmem : j ∈ corpusKeys c := by simpa using hc
      have hs := (corpusGet_isSome_iff c j).mpr hmem
      cases hg : corpusGet c j
      · rw [hg] at hs; simp at hs
      · simp [hg]
    · simp [h2]
  · rw [if_neg hc, h, corpusGet_dictSet]
    by_cases h2 : j = pid
    · subst h2
      have hnone : corpusGet c j = none :=
        corpusGet_eq_none_of_not_mem (by simpa using hc)
      simp [hnone]
    · simp [h2]

theorem corpusKeys_appendArgument (c : Corpus) (pid : Int) (a : EvaluatedArgument)
    (h : a.id_proposal = pid) :
    corpusKeys (appendArgument c pid a) =
      if (corpusKeys c).contains pid then corpusKeys c else corpusKeys c ++ [pid] := by
  unfold appendArgument
  by_cases hc : (corpusKeys c).contains pid
  · rw [if_pos hc, if_pos hc, corpusKeys_dictAppendTo]
  · rw [if_neg hc, if_neg hc, h, corpusKeys_dictSet, if_neg hc]

theorem countAt_appendArgument (c : Corpus) (pid : Int) (a : EvaluatedArgument)
    (h : a.id_proposal = pid) (j : Int) :
    countAt (appendArgument c pid a) j = countAt c j + if j = pid then 1 else 0 := by
  unfold countAt
  rw [corpusGet_appendArgument c pid a h]
  by_cases h2 : j = pid
  · simp [h2]
  · simp [h2]

theorem countAt_appendAllArguments (pid : Int) :
    ∀ (l : List EvaluatedArgument) (c : Corpus),
    (∀ a ∈ l, a.id_proposal = pid) → ∀ j,
    countAt (appendAllArguments c pid l) j =
      countAt c j + if j = pid then l.length else 0 := by
  intro l
  induction l with
  | nil => intro c h j; simp [appendAllArguments]
  | cons a rest ih =>
    intro c h j
    have ha : a.id_proposal = pid := h a (List.mem_cons_self a rest)
    have hstep : appendAllArguments c pid (a :: rest) =
        appendAllArguments (appendArgument c pid a) pid rest := rfl
    rw [hstep, ih (appendArgument c pid a) (fun x hx => h x (List.mem_cons_of_mem a hx)) j,
      countAt_appendArgument c pid a ha j]
    by_cases h2 : j = pid
    · simp only [h2, if_true, List.length_cons]
      omega
    · simp [h2]

theorem mem_corpusKeys_appendAllArguments (pid : Int) :
    ∀ (l : List EvaluatedArgument) (c : Corpus),
    (∀ a ∈ l, a.id_proposal = pid) → ∀ j,
    (j ∈ corpusKeys (appendAllArguments c pid l) ↔
      j ∈ corpusKeys c ∨ (j = pid ∧ l ≠ [])) := by
  intro l
  induction l with
  | nil => intro c h j; simp [appendAllArguments]
  | cons a rest ih =>
    intro c h j
    have ha : a.id_proposal = pid := h a (List.mem_cons_self a rest)
    have hstep : appendAllArguments c pid (a :: rest) =
        appendAllArguments (appendArgument c pid a) pid rest := rfl
    rw [hstep, ih (appendArgument c pid a) (fun x hx => h x (List.mem_cons_of_mem a hx)) j]
    have hkeys := corpusKeys_appendArgument c pid a ha
    by_cases hc : (corpusKeys c).contains pid
    · rw [hkeys, if_pos hc]
      have hmem : pid ∈ corpusKeys c := by simpa using hc
      constructor
      · rintro (hj | ⟨rfl, _⟩)
        · exact Or.inl hj
        · exact Or.inl hmem
      · rintro (hj | ⟨rfl, _⟩)
        · exact Or.inl hj
        · exact Or.inl hmem
    · rw [hkeys, if_neg hc]
      simp only [List.mem_append, List.mem_singleton, ne_eq]
      constructor
      · rintro ((hj | rfl) | ⟨rfl, _⟩)
        · exact Or.inl hj
        · exact Or.inr ⟨rfl, by simp⟩
        · exact Or.inr ⟨rfl, by simp⟩
      · rintro (hj | ⟨rfl, _⟩)
        · exact Or.inl (Or.inl hj)
        · exact Or.inl (Or.inr rfl)

/-! ### Lemmas about the multiset of stored arguments -/

theorem corpusArgs_append (c1 c2 : Corpus) :
    corpusArgs (c1 ++ c2) = corpusArgs c1 ++ corpusArgs c2 := by
  induction c1 with
  | nil => rfl
  | cons kv rest ih => simp [corpusArgs, ih]

theorem mem_corpusArgs_dictAppendTo {x : EvaluatedArgument} (c : Corpus) (k : Int)
    (a : EvaluatedArgument) (hx : x ∈ corpusArgs (dictAppendTo c k a)) :
    x ∈ corpusArgs c ∨ x = a := by
  induction c with
  | nil => simp [dictAppendTo, corpusArgs] at hx
  | cons kv rest ih =>
    simp only [dictAppendTo, List.map_cons, corpusArgs] at hx ⊢
    by_cases hk : kv.1 = k
    · rw [if_pos hk] at hx
      rcases List.mem_append.mp hx with h | h
      · rcases List.mem_append.mp h with h2 | h2
        · exact Or.inl (List.mem_append.mpr (Or.inl h2))
        · simp at h2; exact Or.inr h2
      · rcases ih h with h2 | h2
        · exact Or.inl (List.mem_append.mpr (Or.inr h2))
        · exact Or.inr h2
    · rw [if_neg hk] at hx
      rcases List.mem_append.mp hx with h | h
      · exact Or.inl (List.mem_append.mpr (Or.inl h))
      · rcases ih h with h2 | h2
        · exact Or.inl (List.mem_append.mpr (Or.inr h2))
        · exact Or.inr h2

theorem mem_corpusArgs_dictReplace {x : EvaluatedArgument} (c : Corpus) (k : Int)
    (v : List EvaluatedArgument)
    (hx : x ∈ corpusArgs (c.map fun kv => if kv.1 = k then (kv.1, v) else kv)) :
    x ∈ corpusArgs c ∨ x ∈ v := by
  induction c with
  | nil => simp [corpusArgs] at hx
  | cons kv rest ih =>
    simp only [List.map_cons, corpusArgs] at hx ⊢
    by_cases hk : kv.1 = k
    · rw [if_pos hk] at hx
      rcases List.mem_append.mp hx with h | h
      · exact Or.inr h
      · rcases ih h with h2 | h2
        · exact Or.inl (List.mem_append.mpr (Or.inr h2))
        · exact Or.inr h2
    · rw [if_neg hk] at hx
      rcases List.mem_append.mp hx with h | h
      · exact Or.inl (List.mem_append.mpr (Or.inl h))
      · rcases ih h with h2 | h2
        · exact Or.inl (List.mem_append.mpr (Or.inr h2))
        · exact Or.inr h2

theorem mem_corpusArgs_dictSet {x : EvaluatedArgument} (c : Corpus) (k : Int)
    (v : List EvaluatedArgument) (hx : x ∈ corpusArgs (dictSet c k v)) :
    x ∈ corpusArgs c ∨ x ∈ v := by
  unfold dictSet at hx
  by_cases hc : (corpusKeys c).contains k
  · rw [if_pos hc] at hx
    exact mem_corpusArgs_dictReplace c k v hx
  · rw [if_neg hc, corpusArgs_append] at hx
    rcases List.mem_append.mp hx with h | h
    · exact Or.inl h
    · simp [corpusArgs] at h
      exact Or.inr h

theorem mem_corpusArgs_appendArgument {x : EvaluatedArgument} (c : Corpus)
    (pid : Int) (a : EvaluatedArgument)
    (hx : x ∈ corpusArgs (appendArgument c pid a)) : x ∈ corpusArgs c ∨ x = a := by
  unfold appendArgument at hx
  by_cases hc : (corpusKeys c).contains pid
  · rw [if_pos hc] at hx
    exact mem_corpusArgs_dictAppendTo c pid a hx
  · rw [if_neg hc] at hx
    rcases mem_corpusArgs_dictSet c a.id_proposal [a] hx with h | h
    · exact Or.inl h
    · simp at h; exact Or.inr h

theorem mem_corpusArgs_appendAllArguments {x : EvaluatedArgument} (pid : Int) :
    ∀ (l : List EvaluatedArgument) (c : Corpus),
    x ∈ corpusArgs (appendAllArguments c pid l) → x ∈ corpusArgs c ∨ x ∈ l := by
  intro l
  induction l with
  | nil => intro c hx; exact Or.inl hx
  | cons a rest ih =>
    intro c hx
    have hstep : appendAllArguments c pid (a :: rest) =
        appendAllArguments (appendArgument c pid a) pid rest := rfl
    rw [hstep] at hx
    rcases ih (appendArgument c pid a) hx with h | h
    · rcases mem_corpusArgs_appendArgument c pid a h with h2 | h2
      · exact Or.inl h2
      · exact Or.inr (by simp [h2])
    · exact Or.inr (List.mem_cons_of_mem a h)

/-! ### Entries created by appends are never empty -/

theorem entries_nonempty_appendArgument (c : Corpus) (pid : Int)
    (a : EvaluatedArgument) (hc : ∀ e ∈ c, e.2 ≠ []) :
    ∀ e ∈ appendArgument c pid a, e.2 ≠ [] := by
  intro e he
  unfold appendArgument at he
  by_cases hk : (corpusKeys c).contains pid
  · rw [if_pos hk] at he
    unfold dictAppendTo at he
    rcases List.mem_map.mp he with ⟨e2, he2, rfl⟩
    by_cases h : e2.1 = pid
    · rw [if_pos h]; simp
    · rw [if_neg h]; exact hc e2 he2
  · rw [if_neg hk] at he
    unfold dictSet at he
    by_cases h2 : (corpusKeys c).contains a.id_proposal
    · rw [if_pos h2] at he
      rcases List.mem_map.mp he with ⟨e2, he2, rfl⟩
      by_cases h : e2.1 = a.id_proposal
      · rw [if_pos h]; simp
      · rw [if_neg h]; exact hc e2 he2
    · rw [if_neg h2] at he
      rcases List.mem_append.mp he with h | h
      · exact hc e h
      · simp at h; simp [h]

theorem entries_nonempty_appendAllArguments (pid : Int) :
    ∀ (l : List EvaluatedArgument) (c : Corpus),
    (∀ e ∈ c, e.2 ≠ []) → ∀ e ∈ appendAllArguments c pid l, e.2 ≠ [] := by
  intro l
  induction l with
  | nil => intro c hc; exact hc
  | cons a rest ih =>
    intro c hc
    exact ih (appendArgument c pid a) (entries_nonempty_appendArgument c pid a hc)

/-! ### Lemmas about the filtering primitives -/

theorem matchesField_claim_premise (a : EvaluatedArgument) (values : List Int) :
    matchesField a "claim_premise" values =
      .ok (match a.evaluation.claim_premise with
           | some n => values.contains n
           | none => false) := by
  have hg : a.evaluation.get_field "claim_premise"
      = .ok (pyOfOpt a.evaluation.claim_premise) := rfl
  unfold matchesField
  rw [hg]
  cases a.evaluation.claim_premise <;> rfl

theorem filterArgsE_claim_premise (args : List EvaluatedArgument) :
    filterArgsE "claim_premise" [1] args = .ok (args.filter isPositive) := by
  induction args with
  | nil => rfl
  | cons a rest ih =>
    have hm := matchesField_claim_premise a [1]
    simp only [filterArgsE, hm, ih]
    cases hc : a.evaluation.claim_premise with
    | none => simp [List.filter_cons, isPositive, hc]
    | some n =>
      by_cases h : n = 1
      · subst h
        simp [List.filter_cons, isPositive, hc]
      · simp [List.filter_cons, isPositive, hc, h]

theorem filterArgsE_sound (f : String) (v : List Int) :
    ∀ (args kept : List EvaluatedArgument), filterArgsE f v args = .ok kept →
    ∀ x ∈ kept, matchesField x f v = .ok true ∧ x ∈ args := by
  intro args
  induction args with
  | nil =>
    intro kept h x hx
    unfold filterArgsE at h
    injection h with h
    subst h
    simp at hx
  | cons a rest ih =>
    intro kept h x hx
    unfold filterArgsE at h
    cases hm : matchesField a f v with
    | error e => rw [hm] at h; cases h
    | ok b =>
      rw [hm] at h
      cases ht : filterArgsE f v rest with
      | error e => rw [ht] at h; cases h
      | ok tl =>
        rw [ht] at h
        injection h with h
        subst h
        cases b with
        | true =>
          simp only [if_true] at hx
          rcases List.mem_cons.mp hx with hx1 | hx2
          · rw [hx1]
            exact ⟨hm, List.mem_cons_self a rest⟩
          · rcases ih tl ht x hx2 with ⟨hmx, hmem⟩
            exact ⟨hmx, List.mem_cons_of_mem a hmem⟩
        | false =>
          simp only [Bool.false_eq_true, if_false] at hx
          rcases ih tl ht x hx with ⟨hmx, hmem⟩
          exact ⟨hmx, List.mem_cons_of_mem a hmem⟩

theorem mem_nonArgumentsOf {x : EvaluatedArgument} {args : List EvaluatedArgument}
    (hx : x ∈ nonArgumentsOf args) : x ∈ args :=
  List.mem_of_mem_filter hx

theorem length_take_n_random {α : Type} (sample : List α → Nat → List α)
    (hs : SamplerSpec sample) (data : List α) (n : Nat) :
    (take_n_random_elements sample data n).length = min n data.length := by
  unfold take_n_random_elements
  by_cases h : n ≥ data.length
  · rw [if_pos h]
    omega
  · rw [if_neg h]
    have := (hs data n (by omega)).1
    omega

theorem mem_take_n_random {α : Type} {sample : List α → Nat → List α}
    (hs : SamplerSpec sample) {data : List α} {n : Nat} {x : α}
    (hx : x ∈ take_n_random_elements sample data n) : x ∈ data := by
  unfold take_n_random_elements at hx
  by_cases h : n ≥ data.length
  · rwa [if_pos h] at hx
  · rw [if_neg h] at hx
    exact (hs data n (by omega)).2 x hx

theorem take_n_random_all {α : Type} (sample : List α → Nat → List α)
    (data : List α) (n : Nat) (h : data.length ≤ n) :
    take_n_random_elements sample data n = data := by
  unfold take_n_random_elements
  rw [if_pos h]

/-! ### Lemmas about the boundary balancing of the one-pass functions -/

theorem balancePair_lengths (sample : List EvaluatedArgument → Nat → List EvaluatedArgument)
    (hs : SamplerSpec sample) (ev ne : List EvaluatedArgument) :
    (balancePair sample ev ne).1.length = min ev.length ne.length ∧
    (balancePair sample ev ne).2.length = min ev.length ne.length := by
  unfold balancePair
  by_cases h1 : ev.length < ne.length
  · rw [if_pos h1]
    constructor
    · simp only [Prod.fst]
      omega
    · simp only [Prod.snd]
      rw [length_take_n_random sample hs]
  · rw [if_neg h1]
    by_cases h2 : ne.length < ev.length
    · rw [if_pos h2]
      constructor
      · simp only [Prod.fst]
        rw [length_take_n_random sample hs]
        omega
      · simp only [Prod.snd]
        omega
    · rw [if_neg h2]
      constructor
      · simp only [Prod.fst]
        omega
      · simp only [Prod.snd]
        omega

theorem mem_balancePair_left {sample : List EvaluatedArgument → Nat → List EvaluatedArgument}
    (hs : SamplerSpec sample) {ev ne : List EvaluatedArgument} {x : EvaluatedArgument}
    (hx : x ∈ (balancePair sample ev ne).1) : x ∈ ev := by
  unfold balancePair at hx
  by_cases h1 : ev.length < ne.length
  · rw [if_pos h1] at hx
    exact hx
  · rw [if_neg h1] at hx
    by_cases h2 : ne.length < ev.length
    · rw [if_pos h2] at hx
      exact mem_take_n_random hs hx
    · rw [if_neg h2] at hx
      exact hx

theorem mem_balancePair_right {sample : List EvaluatedArgument → Nat → List EvaluatedArgument}
    (hs : SamplerSpec sample) {ev ne : List EvaluatedArgument} {x : EvaluatedArgument}
    (hx : x ∈ (balancePair sample ev ne).2) : x ∈ ne := by
  unfold balancePair at hx
  by_cases h1 : ev.length < ne.length
  · rw [if_pos h1] at hx
    exact mem_take_n_random hs hx
  · rw [if_neg h1] at hx
    by_cases h2 : ne.length < ev.length
    · rw [if_pos h2] at hx
      exact hx
    · rw [if_neg h2] at hx
      exact hx

theorem countAt_balanceFlush (sample : List EvaluatedArgument → Nat → List EvaluatedArgument)
    (hs : SamplerSpec sample) (pid : Int) (c : Corpus)
    (ev ne : List EvaluatedArgument)
    (hev : ∀ a ∈ ev, a.id_proposal = pid) (hne : ∀ a ∈ ne, a.id_proposal = pid)
    (j : Int) :
    countAt (balanceFlush sample pid c ev ne) j =
      countAt c j + if j = pid then 2 * min ev.length ne.length else 0 := by
  have h1 := (balancePair_lengths sample hs ev ne).1
  have h2 := (balancePair_lengths sample hs ev ne).2
  simp only [balanceFlush]
  rw [countAt_appendAllArguments pid _ _
        (fun a ha => hne a (mem_balancePair_right hs ha)) j,
      countAt_appendAllArguments pid _ _
        (fun a ha => hev a (mem_balancePair_left hs ha)) j,
      h1, h2]
  by_cases hj : j = pid
  · simp only [hj, if_true]
    omega
  · simp [hj]

/-! ### The per-proposal counting behaviour of `filter_by_completed` -/

theorem filterByCompletedGo_claim_premise_count
    (sample : List EvaluatedArgument → Nat → List EvaluatedArgument)
    (hs : SamplerSpec sample) :
    ∀ (entries : List (Int × List EvaluatedArgument)) (acc : Corpus),
    (∀ p ∈ entries, ∀ a ∈ p.2, a.id_proposal = p.1) →
    (entries.map Prod.fst).Nodup →
    ∃ c', filterByCompletedGo sample "claim_premise" [1] entries acc = .ok c' ∧
      (∀ j, j ∉ entries.map Prod.fst → countAt c' j = countAt acc j) ∧
      (∀ pid args, (pid, args) ∈ entries →
        countAt c' pid =
          countAt acc pid + (pcount args + min (pcount args) (qcount args))) := by
  intro entries
  induction entries with
  | nil =>
    intro acc hwf hnd
    exact ⟨acc, rfl, fun j _ => rfl, fun pid args h => by simp at h⟩
  | cons e rest ih =>
    intro acc hwf hnd
    obtain ⟨k, args⟩ := e
    have hfa := filterArgsE_claim_premise args
    have hargsk : ∀ a ∈ args, a.id_proposal = k :=
      hwf (k, args) (List.mem_cons_self _ _)
    have hm_ids : ∀ a ∈ args.filter isPositive, a.id_proposal = k :=
      fun a ha => hargsk a (List.mem_of_mem_filter ha)
    have hs_ids : ∀ a ∈ take_n_random_elements sample (nonArgumentsOf args)
        (args.filter isPositive).length, a.id_proposal = k :=
      fun a ha => hargsk a (mem_nonArgumentsOf (mem_take_n_random hs ha))
    have hstep : filterByCompletedGo sample "claim_premise" [1] ((k, args) :: rest) acc
        = filterByCompletedGo sample "claim_premise" [1] rest
            (appendAllArguments (appendAllArguments acc k (args.filter isPositive)) k
              (take_n_random_elements sample (nonArgumentsOf args)
                (args.filter isPositive).length)) := by
      simp only [filterByCompletedGo, hfa]
    have hslen : (take_n_random_elements sample (nonArgumentsOf args)
        (args.filter isPositive).length).length
          = min (pcount args) (qcount args) := by
      rw [length_take_n_random sample hs]
      rfl
    have hcount2 : ∀ j,
        countAt (appendAllArguments (appendAllArguments acc k (args.filter isPositive)) k
          (take_n_random_elements sample (nonArgumentsOf args)
            (args.filter isPositive).length)) j
        = countAt acc j +
            if j = k then pcount args + min (pcount args) (qcount args) else 0 := by
      intro j
      rw [countAt_appendAllArguments k _ _ hs_ids j,
        countAt_appendAllArguments k _ _ hm_ids j, hslen]
      by_cases hj : j = k
      · simp only [hj, if_true]
        have : (args.filter isPositive).length = pcount args := rfl
        omega
      · simp [hj]
    rw [List.map_cons, List.nodup_cons] at hnd
    obtain ⟨c', hc', huntouched, hcounts⟩ :=
      ih _ (fun p hp => hwf p (List.mem_cons_of_mem _ hp)) hnd.2
    refine ⟨c', by rw [hstep]; exact hc', ?_, ?_⟩
    · intro j hj
      rw [List.map_cons, List.mem_cons, not_or] at hj
      rw [huntouched j hj.2, hcount2 j]
      simp [hj.1]
    · intro pid args2 hmem
      rcases List.mem_cons.mp hmem with heq | htl
      · injection heq with h1 h2
        subst h1
        subst h2
        rw [huntouched pid hnd.1, hcount2 pid]
        simp
      · have hpid_mem : pid ∈ rest.map Prod.fst :=
          List.mem_map_of_mem Prod.fst htl
        have hne : pid ≠ k := fun hh => hnd.1 (hh ▸ hpid_mem)
        rw [hcounts pid args2 htl, hcount2 pid]
        simp [hne]

/-! ### Soundness of `filter_by` (retained arguments match; no new keys) -/

theorem filterByGo_args_sound (f : String) (v : List Int) :
    ∀ (entries : List (Int × List EvaluatedArgument)) (acc c' : Corpus),
    filterByGo f v entries acc = .ok c' →
    ∀ x ∈ corpusArgs c', x ∈ corpusArgs acc ∨ matchesField x f v = .ok true := by
  intro entries
  induction entries with
  | nil =>
    intro acc c' h x hx
    injection h with h
    subst h
    exact Or.inl hx
  | cons e rest ih =>
    intro acc c' h x hx
    obtain ⟨k, args⟩ := e
    unfold filterByGo at h
    cases hfa : filterArgsE f v args with
    | error err => rw [hfa] at h; cases h
    | ok kept =>
      rw [hfa] at h
      rcases ih _ c' h x hx with h2 | h2
      · rcases mem_corpusArgs_appendAllArguments k kept acc h2 with h3 | h3
        · exact Or.inl h3
        · exact Or.inr (filterArgsE_sound f v args kept hfa x h3).1
      · exact Or.inr h2

theorem filterByGo_sound (f : String) (v : List Int) :
    ∀ (entries : List (Int × List EvaluatedArgument)) (acc : Corpus)
      (c' : Corpus),
    (∀ p ∈ entries, ∀ a ∈ p.2, a.id_proposal = p.1) →
    filterByGo f v entries acc = .ok c' →
    (∀ x ∈ corpusArgs c', x ∈ corpusArgs acc ∨ matchesField x f v = .ok true) ∧
    (∀ j ∈ corpusKeys c', j ∈ corpusKeys acc ∨ j ∈ entries.map Prod.fst) := by
  intro entries
  induction entries with
  | nil =>
    intro acc c' _ h
    injection h with h
    subst h
    exact ⟨fun x hx => Or.inl hx, fun j hj => Or.inl hj⟩
  | cons e rest ih =>
    intro acc c' hwf h
    obtain ⟨k, args⟩ := e
    have hargsk : ∀ a ∈ args, a.id_proposal = k :=
      hwf (k, args) (List.mem_cons_self _ _)
    unfold filterByGo at h
    cases hfa : filterArgsE f v args with
    | error err => rw [hfa] at h; cases h
    | ok kept =>
      rw [hfa] at h
      have hk_ids : ∀ a ∈ kept, a.id_proposal = k :=
        fun a ha => hargsk a (filterArgsE_sound f v args kept hfa a ha).2
      obtain ⟨hargs, hkeys⟩ :=
        ih (appendAllArguments acc k kept) c'
          (fun p hp => hwf p (List.mem_cons_of_mem _ hp)) h
      constructor
      · intro x hx
        rcases hargs x hx with h2 | h2
        · rcases mem_corpusArgs_appendAllArguments k kept acc h2 with h3 | h3
          · exact Or.inl h3
          · exact Or.inr (filterArgsE_sound f v args kept hfa x h3).1
        · exact Or.inr h2
      · intro j hj
        rcases hkeys j hj with h2 | h2
        · rcases (mem_corpusKeys_appendAllArguments k kept acc hk_ids j).mp h2 with
            h3 | ⟨h3, _⟩
          · exact Or.inl h3
          · exact Or.inr (by simp [h3])
        · exact Or.inr (by simp; exact Or.inr (by simpa using h2))

/-! ### Key absence for empty match sets -/

theorem filterByGo_not_mem_keys (f : String) (v : List Int) (pid : Int) :
    ∀ (entries : List (Int × List EvaluatedArgument)) (acc : Corpus),
    (∀ p ∈ entries, ∀ a ∈ p.2, a.id_proposal = p.1) →
    pid ∉ corpusKeys acc →
    (∀ p ∈ entries, p.1 = pid → filterArgsE f v p.2 = .ok []) →
    ∀ c', filterByGo f v entries acc = .ok c' → pid ∉ corpusKeys c' := by
  intro entries
  induction entries with
  | nil =>
    intro acc _ hacc _ c' h
    injection h with h
    subst h
    exact hacc
  | cons e rest ih =>
    intro acc hwf hacc hempty c' h
    obtain ⟨k, args⟩ := e
    have hargsk : ∀ a ∈ args, a.id_proposal = k :=
      hwf (k, args) (List.mem_cons_self _ _)
    unfold filterByGo at h
    cases hfa : filterArgsE f v args with
    | error err => rw [hfa] at h; cases h
    | ok kept =>
      rw [hfa] at h
      have hk_ids : ∀ a ∈ kept, a.id_proposal = k :=
        fun a ha => hargsk a (filterArgsE_sound f v args kept hfa a ha).2
      have hacc2 : pid ∉ corpusKeys (appendAllArguments acc k kept) := by
        intro hmem
        rcases (mem_corpusKeys_appendAllArguments k kept acc hk_ids pid).mp hmem with
          h2 | ⟨h2, h3⟩
        · exact hacc h2
        · subst h2
          have := hempty (pid, args) (List.mem_cons_self _ _) rfl
          rw [hfa] at this
          injection this with this
          exact h3 this
      exact ih _ (fun p hp => hwf p (List.mem_cons_of_mem _ hp)) hacc2
        (fun p hp => hempty p (List.mem_cons_of_mem _ hp)) c' h

theorem filterByCompletedGo_not_mem_keys
    (sample : List EvaluatedArgument → Nat → List EvaluatedArgument)
    (hs : SamplerSpec sample) (f : String) (v : List Int) (pid : Int) :
    ∀ (entries : List (Int × List EvaluatedArgument)) (acc : Corpus),
    (∀ p ∈ entries, ∀ a ∈ p.2, a.id_proposal = p.1) →
    pid ∉ corpusKeys acc →
    (∀ p ∈ entries, p.1 = pid → filterArgsE f v p.2 = .ok []) →
    ∀ c', filterByCompletedGo sample f v entries acc = .ok c' →
      pid ∉ corpusKeys c' := by
  intro entries
  induction entries with
  | nil =>
    intro acc _ hacc _ c' h
    injection h with h
    subst h
    exact hacc
  | cons e rest ih =>
    intro acc hwf hacc hempty c' h
    obtain ⟨k, args⟩ := e
    have hargsk : ∀ a ∈ args, a.id_proposal = k :=
      hwf (k, args) (List.mem_cons_self _ _)
    unfold filterByCompletedGo at h
    cases hfa : filterArgsE f v args with
    | error err => rw [hfa] at h; cases h
    | ok kept =>
      rw [hfa] at h
      simp only at h
      have hk_ids : ∀ a ∈ kept, a.id_proposal = k :=
        fun a ha => hargsk a (filterArgsE_sound f v args kept hfa a ha).2
      have hsamp_ids : ∀ a ∈ take_n_random_elements sample (nonArgumentsOf args)
          kept.length, a.id_proposal = k :=
        fun a ha => hargsk a (mem_nonArgumentsOf (mem_take_n_random hs ha))
      have hacc2 : pid ∉ corpusKeys
          (appendAllArguments (appendAllArguments acc k kept) k
            (take_n_random_elements sample (nonArgumentsOf args) kept.length)) := by
        intro hmem
        have hnotk : k = pid → kept = [] := by
          intro hk
          have := hempty (k, args) (List.mem_cons_self _ _) hk
          rw [hfa] at this
          simpa using this
        rcases (mem_corpusKeys_appendAllArguments k _ _ hsamp_ids pid).mp hmem with
          h2 | ⟨h2, h3⟩
        · rcases (mem_corpusKeys_appendAllArguments k kept acc hk_ids pid).mp h2 with
            h4 | ⟨h4, h5⟩
          · exact hacc h4
          · exact h5 (hnotk h4.symm)
        · subst h2
          have hkept : kept = [] := hnotk rfl
          subst hkept
          have : (take_n_random_elements sample (nonArgumentsOf args)
              (List.length ([] : List EvaluatedArgument))).length = 0 := by
            rw [length_take_n_random sample hs]
            simp
          exact h3 (List.length_eq_zero.mp this)
      exact ih _ (fun p hp => hwf p (List.mem_cons_of_mem _ hp)) hacc2
        (fun p hp => hempty p (List.mem_cons_of_mem _ hp)) c' h

/-! ### Filter results never contain empty entries -/

theorem filterByGo_entries_nonempty (f : String) (v : List Int) :
    ∀ (entries : List (Int × List EvaluatedArgument)) (acc : Corpus),
    (∀ e ∈ acc, e.2 ≠ []) →
    ∀ c', filterByGo f v entries acc = .ok c' → ∀ e ∈ c', e.2 ≠ [] := by
  intro entries
  induction entries with
  | nil =>
    intro acc hacc c' h
    injection h with h
    subst h
    exact hacc
  | cons e rest ih =>
    intro acc hacc c' h
    obtain ⟨k, args⟩ := e
    unfold filterByGo at h
    cases hfa : filterArgsE f v args with
    | error err => rw [hfa] at h; cases h
    | ok kept =>
      rw [hfa] at h
      exact ih _ (entries_nonempty_appendAllArguments k kept acc hacc) c' h

theorem filterByCompletedGo_entries_nonempty
    (sample : List EvaluatedArgument → Nat → List EvaluatedArgument)
    (f : String) (v : List Int) :
    ∀ (entries : List (Int × List EvaluatedArgument)) (acc : Corpus),
    (∀ e ∈ acc, e.2 ≠ []) →
    ∀ c', filterByCompletedGo sample f v entries acc = .ok c' → ∀ e ∈ c', e.2 ≠ [] := by
  intro entries
  induction entries with
  | nil =>
    intro acc hacc c' h
    injection h with h
    subst h
    exact hacc
  | cons e rest ih =>
    intro acc hacc c' h
    obtain ⟨k, args⟩ := e
    unfold filterByCompletedGo at h
    cases hfa : filterArgsE f v args with
    | error err => rw [hfa] at h; cases h
    | ok kept =>
      rw [hfa] at h
      simp only at h
      exact ih _ (entries_nonempty_appendAllArguments k _ _
        (entries_nonempty_appendAllArguments k kept acc hacc)) c' h

/-- In a corpus whose keys are pairwise distinct (every Python dict),
an entry is determined by its key. -/
theorem entry_unique :
    ∀ (c : Corpus), (corpusKeys c).Nodup →
    ∀ (pid : Int) (args : List EvaluatedArgument), (pid, args) ∈ c →
    ∀ p ∈ c, p.1 = pid → p = (pid, args) := by
  intro c
  induction c with
  | nil => intro _ pid args hmem; simp at hmem
  | cons kv rest ih =>
    intro hnd pid args hmem p hp hp1
    rw [corpusKeys, List.map_cons, List.nodup_cons] at hnd
    rcases List.mem_cons.mp hmem with hm | hm
    · rcases List.mem_cons.mp hp with hp2 | hp2
      · rw [hp2, ← hm]
      · exfalso
        apply hnd.1
        have : p.1 ∈ List.map Prod.fst rest := List.mem_map_of_mem Prod.fst hp2
        rw [hp1] at this
        rw [← hm]
        exact this
    · rcases List.mem_cons.mp hp with hp2 | hp2
      · exfalso
        apply hnd.1
        have : pid ∈ List.map Prod.fst rest := by
          have := List.mem_map_of_mem Prod.fst hm
          simpa using this
        rw [← hp1, hp2] at this
        exact this
      · exact ih hnd.2 pid args hm p hp2 hp1

/-! ### The claims -/

/-- C1: for a proposal group with `p` positives and `q` negatives, the
one-pass boundary balancing (the flush shared by
`classify_arguments_or_not_opt` and
`classify_arguments_or_not_with_aspect_opt`) commits exactly
`2 * min p q` arguments for that proposal, whereas the two-pass
balancing (`classify_arguments_or_not`, i.e.
`filter_by_completed("claim_premise", 1)`) yields `p + min(p, q)`; the
two counts are equal exactly when `p ≤ q` and diverge whenever
`p > q`. -/
theorem claim_C1
    (sample : List EvaluatedArgument → Nat → List EvaluatedArgument)
    (hs : SamplerSpec sample) (pid : Int) (c : Corpus)
    (ev ne : List EvaluatedArgument)
    (hev : ∀ a ∈ ev, a.id_proposal = pid) (hne : ∀ a ∈ ne, a.id_proposal = pid)
    (args : List EvaluatedArgument) (hargs : ∀ a ∈ args, a.id_proposal = pid) :
    countAt (balanceFlush sample pid c ev ne) pid =
        countAt c pid + 2 * min ev.length ne.length ∧
    (∃ c2, filter_by_completed sample [(pid, args)] "claim_premise" [1] = .ok c2 ∧
      countAt c2 pid = pcount args + min (pcount args) (qcount args)) ∧
    (∀ p q : Nat,
      (2 * min p q = p + min p q ↔ p ≤ q) ∧
      (q < p → 2 * min p q ≠ p + min p q)) := by
  refine ⟨?_, ?_, ?_⟩
  · rw [countAt_balanceFlush sample hs pid c ev ne hev hne pid]
    simp
  · obtain ⟨c2, hc2, _, hcount⟩ :=
      filterByCompletedGo_claim_premise_count sample hs [(pid, args)] []
        (by
          intro p hp
          simp only [List.mem_singleton] at hp
          subst hp
          exact hargs)
        (by simp)
    refine ⟨c2, hc2, ?_⟩
    rw [hcount pid args (List.mem_singleton_self _)]
    have h0 : countAt [] pid = 0 := rfl
    rw [h0]
    omega
  · intro p q
    exact ⟨by omega, by omega⟩

/-- Witness for C1 at the example of the claim: p = 5 positives and
q = 2 negatives give 4 committed arguments for the one-pass flush and
7 for the two-pass filter, and 4 is not 7. -/
theorem claim_C1_witness :
    countAt (balanceFlush takeSampler 1 [] c1evList c1neList) 1 =
        countAt ([] : Corpus) 1 + 2 * min c1evList.length c1neList.length ∧
    (∃ c2, filter_by_completed takeSampler [(1, c1allList)] "claim_premise" [1]
        = .ok c2 ∧
      countAt c2 1 = pcount c1allList + min (pcount c1allList) (qcount c1allList)) ∧
    (∀ p q : Nat,
      (2 * min p q = p + min p q ↔ p ≤ q) ∧
      (q < p → 2 * min p q ≠ p + min p q)) :=
  claim_C1 takeSampler takeSampler_spec 1 [] c1evList c1neList
    (by decide) (by decide) c1allList (by decide)

/-- C2 (amended): for every Python-representable corpus (pairwise
distinct keys) in which every stored argument carries the proposal id
it is keyed under, and every proposal id present in it with `p`
arguments whose `claim_premise` field equals 1 and `q` arguments whose
`claim_premise` field is not 1, `filter_by_completed("claim_premise", 1)`
yields exactly `p + min(p, q)` arguments for that proposal; moreover,
when fewer non-arguments exist than matches, `take_n_random_elements`
returns all of them rather than failing. -/
theorem claim_C2
    (sample : List EvaluatedArgument → Nat → List EvaluatedArgument)
    (hs : SamplerSpec sample) (c : Corpus)
    (hwf : WellFormed c) (hnd : (corpusKeys c).Nodup)
    (pid : Int) (args : List EvaluatedArgument) (hmem : (pid, args) ∈ c) :
    (∀ (data : List EvaluatedArgument) (n : Nat), data.length ≤ n →
      take_n_random_elements sample data n = data) ∧
    ∃ c', filter_by_completed sample c "claim_premise" [1] = .ok c' ∧
      countAt c' pid = pcount args + min (pcount args) (qcount args) := by
  refine ⟨fun data n h => take_n_random_all sample data n h, ?_⟩
  obtain ⟨c', hc', _, hcount⟩ :=
    filterByCompletedGo_claim_premise_count sample hs c [] hwf hnd
  refine ⟨c', hc', ?_⟩
  rw [hcount pid args hmem]
  have h0 : countAt [] pid = 0 := rfl
  rw [h0]
  omega

/-- Counterexample to C2 as stated: the corpus `{1: [c2bneg, c2apos]}`
is reachable in Python via `append_all_arguments(1, [c2bneg, c2apos])`,
has p = 1 and q = 1 for proposal 1, so the claim predicts 2 arguments
for proposal 1; but because `c2apos` carries proposal id 2, the matched
argument is stored under the new key 2 and proposal 1 ends up with only
1 argument. -/
theorem claim_C2_counterexample :
    filter_by_completed takeSampler [(1, [c2bneg, c2apos])] "claim_premise" [1]
      = .ok [(2, [c2apos]), (1, [c2bneg])] ∧
    pcount [c2bneg, c2apos] + min (pcount [c2bneg, c2apos]) (qcount [c2bneg, c2apos])
      = 2 ∧
    countAt [(2, [c2apos]), (1, [c2bneg])] 1 = 1 := by
  exact ⟨rfl, by decide, by decide⟩

/-- Witness for C2 at the scenario of the design documents: one
proposal with 3 positives and 5 negatives yields 3 + min 3 5 = 6. -/
theorem claim_C2_witness :
    (∀ (data : List EvaluatedArgument) (n : Nat), data.length ≤ n →
      take_n_random_elements takeSampler data n = data) ∧
    ∃ c', filter_by_completed takeSampler c2wCorpus "claim_premise" [1] = .ok c' ∧
      countAt c' 1 = pcount c2wArgs + min (pcount c2wArgs) (qcount c2wArgs) :=
  claim_C2 takeSampler takeSampler_spec c2wCorpus (by decide) (by decide)
    1 c2wArgs (by decide)

/-- C3 is FALSE of the code (code bug): the one-pass classifiers never
flush the final active group.  On the stream `[c3r1, c3r2]` (a single
proposal with one positive and one negative) both one-pass functions
return an EMPTY corpus, although the claim requires the final group to
be balanced and committed; the third conjunct shows the same stream
extended with a row of proposal 2 does commit group 1 at the boundary,
while the new final group 2 is dropped in turn. -/
theorem claim_C3 :
    classify_arguments_or_not_opt takeSampler [c3r1, c3r2] = some [] ∧
    classify_arguments_or_not_with_aspect_opt takeSampler [c3r1, c3r2] = some [] ∧
    classify_arguments_or_not_opt takeSampler [c3r1, c3r2, c3r3]
      = some [(1, [c3argPos, c3argNeg])] := by
  refine ⟨by decide, by decide, by decide⟩

/-- C4 is FALSE of the code (code bug): `create_complete_corpus` drops
the last argument row.  A stream with a single argument row produces an
EMPTY corpus; on `[c4r0, c4r1, c4r2]` the non-argument row is skipped,
`c4r1` reaches the corpus, and the final argument row `c4r2` is lost
(there is no flush after the loop, and the always-true string-versus-int
boundary test of line 356 makes every argument row its own group). -/
theorem claim_C4 :
    create_complete_corpus [c4r1] = some [] ∧
    create_complete_corpus [c4r0, c4r1, c4r2] = some [(1, [c4arg1])] := by
  refine ⟨by decide, by decide⟩

/-- C5: every successfully constructed `Evaluation` satisfies the
gating invariant: if `claim` is not 1 then `claim_premise` and `aspect`
are absent (`none`, not zero), and if `claim` is 1 but `claim_premise`
is not 1 then the five premise-dependent fields are absent. -/
theorem claim_C5 (claim claim_premise aspect premise_validation coherence
    consistence persuasion emotional_ethic : String) (e : Evaluation)
    (h : mkEvaluation claim claim_premise aspect premise_validation coherence
      consistence persuasion emotional_ethic = some e) :
    (e.claim ≠ 1 → e.claim_premise = none ∧ e.aspect = none) ∧
    (e.claim = 1 → e.claim_premise ≠ some 1 →
      e.premise_validation = none ∧ e.coherence = none ∧ e.consistence = none ∧
      e.persuasion = none ∧ e.emotional_ethic = none) := by
  unfold mkEvaluation at h
  split at h
  · cases h
  · rename_i c0 hc
    split_ifs at h with h1 h2
    · have hc1 : c0 = 1 := by
        rw [h1] at hc
        have hone : pyInt "1" = some 1 := rfl
        rw [hone] at hc
        injection hc with hc
        exact hc.symm
      subst hc1
      split at h
      · rename_i cp0 a0 hcp ha
        have hcp1 : cp0 = 1 := by
          rw [h2] at hcp
          have hone : pyInt "1" = some 1 := rfl
          rw [hone] at hcp
          injection hcp with hcp
          exact hcp.symm
        subst hcp1
        split at h
        · rename_i pv co cs pe ee hpv hco hcs hpe hee
          injection h with h
          subst h
          exact ⟨fun hne => absurd rfl hne, fun _ hne => absurd rfl hne⟩
        all_goals cases h
      all_goals cases h
    · have hc1 : c0 = 1 := by
        rw [h1] at hc
        have hone : pyInt "1" = some 1 := rfl
        rw [hone] at hc
        injection hc with hc
        exact hc.symm
      subst hc1
      split at h
      · rename_i cp0 a0 hcp ha
        injection h with h
        subst h
        exact ⟨fun hne => absurd rfl hne, fun _ _ => ⟨rfl, rfl, rfl, rfl, rfl⟩⟩
      all_goals cases h
    · injection h with h
      subst h
      exact ⟨fun _ => ⟨rfl, rfl⟩, fun _ _ => ⟨rfl, rfl, rfl, rfl, rfl⟩⟩

/-- Witness for C5: the record built from `claim = "0"` has `claim = 0`
and absent `claim_premise` and `aspect`. -/
theorem claim_C5_witness :
    (evalC0.claim_premise = none ∧ evalC0.aspect = none) ∧
    (evalC0.claim = 1 → evalC0.claim_premise ≠ some 1 →
      evalC0.premise_validation = none ∧ evalC0.coherence = none ∧
      evalC0.consistence = none ∧ evalC0.persuasion = none ∧
      evalC0.emotional_ethic = none) := by
  have h := claim_C5 "0" "" "" "" "" "" "" "" evalC0 (by decide)
  exact ⟨h.1 (by decide), h.2⟩

/-- C6 (amended): whenever `filter_by(f, values)` returns a corpus,
every retained argument satisfies `get_field(f) ∈ values` — for EVERY
corpus, with no side condition; the no-new-proposal-ids half holds for
every corpus in which each stored argument carries the proposal id it
is keyed under. -/
theorem claim_C6 (c : Corpus) (f : String) (values : List Int)
    (c' : Corpus) (h : filter_by c f values = .ok c') :
    (∀ x ∈ corpusArgs c', matchesField x f values = .ok true) ∧
    (WellFormed c → ∀ j ∈ corpusKeys c', j ∈ corpusKeys c) := by
  constructor
  · intro x hx
    rcases filterByGo_args_sound f values c [] c' h x hx with h2 | h2
    · simp [corpusArgs] at h2
    · exact h2
  · intro hwf j hj
    rcases (filterByGo_sound f values c [] c' hwf h).2 j hj with h2 | h2
    · simp [corpusKeys] at h2
    · exact h2

/-- Counterexample to C6 as stated: on the Python-reachable corpus
`{1: [c6x, c6a]}` (where `c6a` carries proposal id 2), filtering by
`claim = 0` stores the only match under the NEW key 2, so the result's
proposal ids are not a subset of the source's. -/
theorem claim_C6_counterexample :
    filter_by [(1, [c6x, c6a])] "claim" [0] = .ok [(2, [c6a])] ∧
    (2 : Int) ∈ corpusKeys [(2, [c6a])] ∧
    (2 : Int) ∉ corpusKeys [(1, [c6x, c6a])] := by
  exact ⟨rfl, by decide, by decide⟩

/-- Witness for C6 on a concrete run, with the well-formedness of the
source corpus discharged for the keys half. -/
theorem claim_C6_witness :
    (∀ x ∈ corpusArgs [(1, [c6wa])], matchesField x "claim" [0] = .ok true) ∧
    (∀ j ∈ corpusKeys [(1, [c6wa])], j ∈ corpusKeys c6wCorpus) := by
  have h := claim_C6 c6wCorpus "claim" [0] [(1, [c6wa])] rfl
  exact ⟨h.1, h.2 (by decide)⟩

/-- C7 (amended): on a Python-representable, well-keyed corpus, a
proposal id whose match set is empty is entirely absent from the result
of `filter_by` and of `filter_by_completed`, and no entry of either
result maps to an empty list. -/
theorem claim_C7
    (sample : List EvaluatedArgument → Nat → List EvaluatedArgument)
    (hs : SamplerSpec sample) (c : Corpus)
    (hwf : WellFormed c) (hnd : (corpusKeys c).Nodup)
    (f : String) (values : List Int) (pid : Int)
    (args : List EvaluatedArgument) (hmem : (pid, args) ∈ c)
    (hemp : filterArgsE f values args = .ok []) :
    (∀ c', filter_by c f values = .ok c' →
      pid ∉ corpusKeys c' ∧ ∀ e ∈ c', e.2 ≠ []) ∧
    (∀ c', filter_by_completed sample c f values = .ok c' →
      pid ∉ corpusKeys c' ∧ ∀ e ∈ c', e.2 ≠ []) := by
  have hempty : ∀ p ∈ c, p.1 = pid → filterArgsE f values p.2 = .ok [] := by
    intro p hp hp1
    rw [entry_unique c hnd pid args hmem p hp hp1]
    exact hemp
  constructor
  · intro c' h
    refine ⟨?_, ?_⟩
    · exact filterByGo_not_mem_keys f values pid c [] hwf (by simp [corpusKeys])
        hempty c' h
    · exact filterByGo_entries_nonempty f values c [] (by simp) c' h
  · intro c' h
    refine ⟨?_, ?_⟩
    · exact filterByCompletedGo_not_mem_keys sample hs f values pid c []
        hwf (by simp [corpusKeys]) hempty c' h
    · exact filterByCompletedGo_entries_nonempty sample f values c [] (by simp) c' h

/-- Counterexample to C7 as stated: in the Python-reachable corpus
`{1: [c7x, c7a], 2: [c7y]}`, proposal 2 has an empty match set for
`claim = 0`, yet the key 2 appears in the filtered result, created by
the mismatched argument `c7a` of proposal 1's entry. -/
theorem claim_C7_counterexample :
    filter_by [(1, [c7x, c7a]), (2, [c7y])] "claim" [0] = .ok [(2, [c7a])] ∧
    filterArgsE "claim" [0] [c7y] = .ok [] ∧
    (2 : Int) ∈ corpusKeys [(2, [c7a])] := by
  exact ⟨rfl, rfl, by decide⟩

/-- Witness for C7: in the well-formed corpus `c7wCorpus`, proposal 2
matches nothing under `claim = 0` and is absent from both filter
results. -/
theorem claim_C7_witness :
    ((2 : Int) ∉ corpusKeys [(1, [c7wx])] ∧
      ∀ e ∈ ([(1, [c7wx])] : Corpus), e.2 ≠ []) ∧
    ((2 : Int) ∉ corpusKeys [(1, [c7wx, c7wx])] ∧
      ∀ e ∈ ([(1, [c7wx, c7wx])] : Corpus), e.2 ≠ []) := by
  have h := claim_C7 takeSampler takeSampler_spec c7wCorpus (by decide) (by decide)
    "claim" [0] 2 [c7wy] (by decide) rfl
  exact ⟨h.1 [(1, [c7wx])] rfl, h.2 [(1, [c7wx, c7wx])] rfl⟩

/-- Counterexample to C8 as stated: `"format_print"` is not one of the
eight recognized field names, yet `getattr` finds the bound method and
`get_field` returns it without raising, so not every non-schema name
fails. -/
theorem claim_C8_counterexample :
    ("format_print" : String) ∉ recognizedFields ∧
    evalC0.get_field "format_print" = .ok (.method "format_print") ∧
    evalC0.get_field "format_print" ≠ .error "UnknownFieldError" := by
  refine ⟨by decide, rfl, fun h => ?_⟩
  rw [show evalC0.get_field "format_print" = .ok (.method "format_print") from rfl] at h
  cases h

/-- C8 (amended): on each recognized field name `get_field` returns
that field's integer value or the absent marker; a name outside the
schema does not necessarily fail — the names of the class's own
methods are returned as bound methods without raising (and the
underscore-prefixed attributes inherited from `object` likewise do not
raise, outside this model); a name that is neither a recognized field,
nor a method of the class, nor underscore-prefixed fails with the
`UnknownFieldError` failure (Python `AttributeError`), not
recovered. -/
theorem claim_C8 (e : Evaluation) :
    (∀ name, name ∈ evaluationMethodNames →
      e.get_field name = .ok (.method name)) ∧
    (∀ name, name ∉ recognizedFields → name ∉ evaluationMethodNames →
      leadingUnderscore name = false →
      e.get_field name = .error "UnknownFieldError") ∧
    e.get_field "claim" = .ok (.vint e.claim) ∧
    e.get_field "claim_premise" = .ok (pyOfOpt e.claim_premise) ∧
    e.get_field "aspect" = .ok (pyOfOpt e.aspect) ∧
    e.get_field "premise_validation" = .ok (pyOfOpt e.premise_validation) ∧
    e.get_field "coherence" = .ok (pyOfOpt e.coherence) ∧
    e.get_field "consistence" = .ok (pyOfOpt e.consistence) ∧
    e.get_field "persuasion" = .ok (pyOfOpt e.persuasion) ∧
    e.get_field "emotional_ethic" = .ok (pyOfOpt e.emotional_ethic) := by
  refine ⟨?_, ?_, rfl, rfl, rfl, rfl, rfl, rfl, rfl, rfl⟩
  · intro name hm
    simp only [evaluationMethodNames, List.mem_cons, List.mem_singleton,
      List.not_mem_nil, or_false] at hm
    rcases hm with rfl | rfl | rfl | rfl
    · rfl
    · rfl
    · rfl
    · rfl
  · intro name hnf hnm _
    simp only [recognizedFields, List.mem_cons, List.mem_singleton,
      List.not_mem_nil, or_false, not_or] at hnf
    obtain ⟨h1, h2, h3, h4, h5, h6, h7, h8⟩ := hnf
    unfold Evaluation.get_field
    rw [if_neg h1, if_neg h2, if_neg h3, if_neg h4, if_neg h5, if_neg h6,
      if_neg h7, if_neg h8, if_neg hnm]

/-- Witness for C8: the method name `"format_file"` does not fail, the
non-attribute name `"foo"` fails, and `"claim"` returns its value. -/
theorem claim_C8_witness :
    evalC0.get_field "format_file" = .ok (.method "format_file") ∧
    evalC0.get_field "foo" = .error "UnknownFieldError" ∧
    evalC0.get_field "claim" = .ok (.vint evalC0.claim) := by
  have h := claim_C8 evalC0
  exact ⟨h.1 "format_file" (by decide),
    h.2.1 "foo" (by decide) (by decide) (by decide), h.2.2.1⟩

/-- C9: `filter_by_completed` with a field other than `claim_premise`
can return the same argument twice in one proposal's sequence: with
`f = "claim"`, `v = 0`, the argument `c9arg` (whose `claim_premise` is
absent, hence not 1) both matches the filter and is drawn again in the
non-argument completion — the matched set and the completion sample are
not disjoint. -/
theorem claim_C9 :
    filter_by_completed takeSampler [(1, [c9arg])] "claim" [0]
      = .ok [(1, [c9arg, c9arg])] ∧
    ("claim" : String) ≠ "claim_premise" ∧
    ¬ ([c9arg, c9arg].Nodup) := by
  exact ⟨rfl, by decide, by decide⟩

/-- C10: when the passed `proposal_id` is not yet a key,
`_append_argument` creates the new entry under `argument.id_proposal`
(so the passed id only ends up as the stored key when the two
coincide); when `proposal_id` is already a key, the argument is
appended under that key. -/
theorem claim_C10 (c : Corpus) (pid : Int) (a : EvaluatedArgument) :
    ((corpusKeys c).contains pid = false →
      corpusGet (appendArgument c pid a) a.id_proposal = some [a] ∧
      (pid ≠ a.id_proposal → pid ∉ corpusKeys (appendArgument c pid a))) ∧
    (∀ l, corpusGet c pid = some l →
      corpusGet (appendArgument c pid a) pid = some (l ++ [a])) := by
  constructor
  · intro hc
    have hcontains : ¬ (corpusKeys c).contains pid = true := by
      rw [hc]
      simp
    have happ : appendArgument c pid a = dictSet c a.id_proposal [a] := by
      unfold appendArgument
      rw [if_neg hcontains]
    constructor
    · rw [happ, corpusGet_dictSet]
      simp
    · intro hne hmem
      rw [happ, corpusKeys_dictSet] at hmem
      have hpid : pid ∉ corpusKeys c := by
        have h2 := hc
        simp at h2
        exact h2
      by_cases h2 : (corpusKeys c).contains a.id_proposal
      · rw [if_pos h2] at hmem
        exact hpid hmem
      · rw [if_neg h2] at hmem
        rcases List.mem_append.mp hmem with h3 | h3
        · exact hpid h3
        · simp at h3
          exact hne h3
  · intro l hl
    have hmem : pid ∈ corpusKeys c :=
      (corpusGet_isSome_iff c pid).mp (by rw [hl]; rfl)
    have hc : (corpusKeys c).contains pid = true := by simpa using hmem
    have happ : appendArgument c pid a = dictAppendTo c pid a := by
      unfold appendArgument
      rw [if_pos hc]
    rw [happ, corpusGet_dictAppendTo]
    simp [hl]

/-- Witness for C10: appending under the absent key 5 stores the
argument under its own proposal id 2 and leaves 5 absent; appending
under the present key 1 extends that entry. -/
theorem claim_C10_witness :
    (corpusGet (appendArgument [(1, [c10x])] 5 c10a) 2 = some [c10a] ∧
      (5 : Int) ∉ corpusKeys (appendArgument [(1, [c10x])] 5 c10a)) ∧
    corpusGet (appendArgument [(1, [c10x])] 1 c10a) 1 = some ([c10x] ++ [c10a]) := by
  have h1 := claim_C10 [(1, [c10x])] 5 c10a
  have h2 := claim_C10 [(1, [c10x])] 1 c10a
  obtain ⟨ha, hb⟩ := h1.1 (by decide)
  exact ⟨⟨ha, hb (by decide)⟩, h2.2 [c10x] (by decide)⟩

end DataLoad
